import Mathlib

/-!
Verification development for obsidian-worklog-gen (src/main.go).

The program is a single-pass CLI: it parses a Markdown kanban board with
goldmark, walks the parse tree to collect checklist items from one named
level-2 section (extractColumnItems), buckets the items by a lowercase
prefix rule (categorizeTitles), optionally rewrites each bucket through a
remote text-generation call (summarizeByCategory, parsing replies with
extractBulletPoints) and renders a weekly report (buildMarkdownSummary).

Modelling choices:
  * The goldmark parser is an external library.  A parsed document is
    represented by its pre-order traversal restricted to the two node
    kinds the walk callback inspects: headings (with their level and the
    string returned by node.Text) and list items (with the string
    returned by node.Text).  Document order of the event list is the only
    structural fact the walk relies on.
  * Go strings are UTF-8 byte strings.  The extraction and categorization
    functions only ever slice at the boundaries of ASCII characters, so
    they are modelled at rune level (Lean Char / String).  The functions
    around extractBulletPoints slice at raw byte offsets, so that part of
    the program is modelled at byte level (List Nat, each entry < 256).
  * strings.ToLower applies the Unicode simple case mapping rune by rune;
    the model applies the ASCII part of that mapping, which is the
    fragment observable by the ASCII category prefixes.
  * Errors returned through the Go error interface are modelled with
    Option / Except; log output is a side effect outside the model.
-/

namespace WorklogGen

/-- Go unicode.IsSpace: the 25 Unicode white-space code points. -/
def goIsSpace (c : Char) : Bool :=
  c = ' ' || c = '\t' || c = '\n' || c.toNat = 11 || c.toNat = 12 || c = '\r' ||
  c.toNat = 0x85 || c.toNat = 0xA0 || c.toNat = 0x1680 ||
  (decide (0x2000 ≤ c.toNat) && decide (c.toNat ≤ 0x200A)) ||
  c.toNat = 0x2028 || c.toNat = 0x2029 ||
  c.toNat = 0x202F || c.toNat = 0x205F || c.toNat = 0x3000

/-- Go strings.TrimSpace on a valid UTF-8 string: drop leading and trailing
white-space runes. -/
def goTrimSpace (s : String) : String :=
  (((s.toList.dropWhile goIsSpace).reverse.dropWhile goIsSpace).reverse).asString

/-- Everything after the first right bracket: models the slice
listItemText[strings.Index(listItemText, rbracket)+1:].  Returns [] when
no right bracket occurs. -/
def afterRB : List Char → List Char
  | [] => []
  | c :: cs => if c = ']' then cs else afterRB cs

/-- Go strings.Fields: maximal runs of non-white-space characters.
The accumulator holds the word currently being read. -/
def goFieldsAux : List Char → List Char → List (List Char)
  | [], acc => if acc = [] then [] else [acc]
  | c :: cs, acc =>
    if goIsSpace c then
      (if acc = [] then goFieldsAux cs [] else acc :: goFieldsAux cs [])
    else goFieldsAux cs (acc ++ [c])

/-- Go strings.Join(words, sep) for a single-space separator. -/
def joinSp : List (List Char) → List Char
  | [] => []
  | [w] => w
  | w :: ws => w ++ (' ' :: joinSp ws)

/-- Payload extraction for one list item, from the ListItem arm of the
walk callback in extractColumnItems (src/main.go lines 49-61): require
both brackets, take everything after the first right bracket, require at
least one character after it, normalize with Fields + Join, discard empty
payloads. -/
def processListItem (t : String) : Option String :=
  let cs := t.toList
  if cs.contains '[' && cs.contains ']' then
    let rest := afterRB cs
    if rest = [] then none
    else
      let itemText := joinSp (goFieldsAux rest [])
      if itemText = [] then none else some itemText.asString
  else none

/-- Spec-side normalization, following the wording of the specification:
collapse every maximal run of white space to a single space.  The flag
records whether the previous character was white space. -/
def collapseWSAux : List Char → Bool → List Char
  | [], _ => []
  | c :: cs, prev =>
    if goIsSpace c then
      (if prev then collapseWSAux cs true else ' ' :: collapseWSAux cs true)
    else c :: collapseWSAux cs false

/-- Drop leading spaces (after collapsing, every white-space run is a
single space character). -/
def trimLSp (l : List Char) : List Char := l.dropWhile (fun c => c == ' ')

/-- Drop trailing spaces. -/
def trimRSp (l : List Char) : List Char := (l.reverse.dropWhile (fun c => c == ' ')).reverse

/-- Spec-side payload normalization: collapse white-space runs to single
spaces, then trim leading and trailing white space. -/
def specNormalize (cs : List Char) : List Char :=
  trimRSp (trimLSp (collapseWSAux cs false))

/-- A parse event of the document tree: the two node kinds the walk
callback of extractColumnItems inspects, with the text goldmark reports
for them.  A document is its pre-order event list. -/
inductive MdNode where
  | heading (level : Nat) (text : String)
  | listItem (text : String)
deriving DecidableEq

/-- The walk callback state machine of extractColumnItems: arguments are
the remaining events, foundTargetHeading, currentHeadingLevel and the
items collected so far.  Returning without consuming the rest of the list
models ast.WalkStop. -/
def walkExtract (columnName : String) : List MdNode → Bool → Nat → List String → Bool × List String
  | [], found, _, items => (found, items)
  | n :: rest, found, lvl, items =>
    match n with
    | MdNode.heading hl txt =>
      if found ∧ hl ≤ lvl then (found, items)
      else if hl = 2 ∧ goTrimSpace txt = columnName then
        walkExtract columnName rest true 2 items
      else walkExtract columnName rest found lvl items
    | MdNode.listItem txt =>
      if found then
        match processListItem txt with
        | some it => walkExtract columnName rest found lvl (items ++ [it])
        | none => walkExtract columnName rest found lvl items
      else walkExtract columnName rest found lvl items

/-- extractColumnItems (src/main.go lines 18-77).  none models the
column-not-found error; the walk callback never produces a Go error, so
the only error path is the missing heading. -/
def extractColumnItems (nodes : List MdNode) (columnName : String) : Option (List String) :=
  match walkExtract columnName nodes false 0 [] with
  | (true, items) => some items
  | (false, _) => none

/-- An event that opens the target section: a level-2 heading whose
trimmed text equals the requested column name. -/
def isOpeningB (columnName : String) (n : MdNode) : Bool :=
  match n with
  | MdNode.heading l t => decide (l = 2) && decide (goTrimSpace t = columnName)
  | MdNode.listItem _ => false

/-- An event that does not close an open section: anything except a
heading of level at most 2. -/
def notCloses (n : MdNode) : Bool :=
  match n with
  | MdNode.heading l _ => decide (2 < l)
  | MdNode.listItem _ => true

/-- Spec-side description of the items of a section: the payloads of the
list items between the opening heading and the first following heading of
level at most 2 (or the end of the document), in document order. -/
def sectionItems (post : List MdNode) : List String :=
  (post.takeWhile notCloses).filterMap
    (fun n => match n with
      | MdNode.heading _ _ => none
      | MdNode.listItem t => processListItem t)

/-- ASCII fragment of the rune-wise Unicode simple lower-case mapping
applied by Go strings.ToLower. -/
def goToLowerChar (c : Char) : Char :=
  if 'A' ≤ c ∧ c ≤ 'Z' then Char.ofNat (c.toNat + 32) else c

/-- Go strings.ToLower, rune by rune. -/
def goToLower (s : String) : String := (s.toList.map goToLowerChar).asString

/-- Go strings.HasPrefix, first argument the string, second the pattern. -/
def listStartsWith : List Char → List Char → Bool
  | _, [] => true
  | [], _ :: _ => false
  | c :: cs, p :: ps => c == p && listStartsWith cs ps

/-- Appending to the list held at an existing key of the category map:
models categories[key] = append(categories[key], title) for a key that is
present (all four keys are created by the map literal and no other key is
ever written). -/
def mapUpd (m : List (String × List String)) (k : String) (v : String) : List (String × List String) :=
  m.map (fun p => if p.1 = k then (p.1, p.2 ++ [v]) else p)

/-- The category map literal of categorizeTitles (src/main.go lines
80-85), as an association list; a Go map is a set of entries, the list
order is the order of the literal. -/
def initCategories : List (String × List String) :=
  [("features", []), ("bugs", []), ("planning/design", []), ("other", [])]

/-- One iteration of the loop of categorizeTitles (src/main.go lines
87-98): lower-case the title and test the literal prefixes. -/
def catStep (categories : List (String × List String)) (title : String) : List (String × List String) :=
  let titleLower := (goToLower title).toList
  if listStartsWith titleLower ("feat".toList) || listStartsWith titleLower ("feature".toList) then
    mapUpd categories "features" title
  else if listStartsWith titleLower ("bug".toList) then
    mapUpd categories "bugs" title
  else if listStartsWith titleLower ("plan".toList) || listStartsWith titleLower ("design".toList) then
    mapUpd categories "planning/design" title
  else
    mapUpd categories "other" title

/-- categorizeTitles (src/main.go lines 79-101). -/
def categorizeTitles (titles : List String) : List (String × List String) :=
  titles.foldl catStep initCategories

/-- Spec-side prefix policy: the category key a single item is filed
under, following the wording of the specification. -/
def categoryFor (title : String) : String :=
  let titleLower := (goToLower title).toList
  if listStartsWith titleLower ("feat".toList) || listStartsWith titleLower ("feature".toList) then
    "features"
  else if listStartsWith titleLower ("bug".toList) then
    "bugs"
  else if listStartsWith titleLower ("plan".toList) || listStartsWith titleLower ("design".toList) then
    "planning/design"
  else
    "other"

/-- Look up one category in the association-list view of the map. -/
def lookupCat (cats : List (String × List String)) (k : String) : List String :=
  ((cats.find? (fun p => p.1 == k)).map Prod.snd).getD []

/-- One iteration of the category loop of buildMarkdownSummary
(src/main.go lines 195-205): skip entries with an empty bullet list,
otherwise append the category name, its bullets and a blank line to the
string builder. -/
def reportStep (sb : String) (p : String × List String) : String :=
  if p.2 = [] then sb
  else sb ++ p.1 ++ "\n" ++ String.join (p.2.map (fun b => "- " ++ b ++ "\n")) ++ "\n"

/-- buildMarkdownSummary (src/main.go lines 190-208): header, then for
every category with a non-empty bullet list, the category name, its
bullets and a blank line; entries with an empty list are skipped.  The
summaries argument is the entry list of the Go map in iteration order. -/
def buildMarkdownSummary (summaries : List (String × List String)) (year : Int) (week : Int) : String :=
  summaries.foldl reportStep ("## Week " ++ toString week ++ " " ++ toString year ++ "\n\n")

/-! Byte-level part of the model.  extractBulletPoints indexes its lines
at raw byte offsets (line[0], line[1], line[2:]), so it is modelled over
UTF-8 byte lists. -/

/-- UTF-8 encoding of one character. -/
def charUtf8 (c : Char) : List Nat :=
  let n := c.toNat
  if n < 0x80 then [n]
  else if n < 0x800 then [0xC0 + n / 64, 0x80 + n % 64]
  else if n < 0x10000 then [0xE0 + n / 4096, 0x80 + (n / 64) % 64, 0x80 + n % 64]
  else [0xF0 + n / 262144, 0x80 + (n / 4096) % 64, 0x80 + (n / 64) % 64, 0x80 + n % 64]

/-- The UTF-8 bytes of a string. -/
def strBytes (s : String) : List Nat := (s.toList.map charUtf8).flatten

/-- Go strings.Split(text, newline): split at every newline byte, which
is unambiguous in UTF-8.  Split of the empty string is one empty piece. -/
def splitOnNL : List Nat → List (List Nat)
  | [] => [[]]
  | b :: bs =>
    if b = 10 then [] :: splitOnNL bs
    else
      match splitOnNL bs with
      | l :: ls => (b :: l) :: ls
      | [] => [[b]]

/-- Strip one leading white-space rune, as its UTF-8 byte sequence.
UTF-8 is prefix-free, so a decoded leading rune is a white-space rune
exactly when the bytes start with one of the 25 encodings below; an
invalid sequence decodes to the replacement rune, which is not white
space, and stops Go TrimSpace exactly as the none branch does here. -/
def stripWsEnc (bs : List Nat) : Option (List Nat) :=
  match bs with
  | [] => none
  | b :: r =>
    if b = 9 ∨ b = 10 ∨ b = 11 ∨ b = 12 ∨ b = 13 ∨ b = 32 then some r
    else if b = 0xC2 then
      match r with
      | b2 :: r2 => if b2 = 0x85 ∨ b2 = 0xA0 then some r2 else none
      | [] => none
    else if b = 0xE1 then
      match r with
      | b2 :: b3 :: r3 => if b2 = 0x9A ∧ b3 = 0x80 then some r3 else none
      | _ => none
    else if b = 0xE2 then
      match r with
      | b2 :: b3 :: r3 =>
        if (b2 = 0x80 ∧ ((0x80 ≤ b3 ∧ b3 ≤ 0x8A) ∨ b3 = 0xA8 ∨ b3 = 0xA9 ∨ b3 = 0xAF)) ∨
           (b2 = 0x81 ∧ b3 = 0x9F) then some r3
        else none
      | _ => none
    else if b = 0xE3 then
      match r with
      | b2 :: b3 :: r3 => if b2 = 0x80 ∧ b3 = 0x80 then some r3 else none
      | _ => none
    else none

/-- Strip one trailing white-space rune; the argument is the reversed
byte list, so the patterns are the reversed encodings.  Continuation
bytes are below 0xC0 and lead bytes are at least 0xC2, so a suffix equal
to one of these encodings is exactly a trailing white-space rune for Go
DecodeLastRune. -/
def stripWsEncRev (bs : List Nat) : Option (List Nat) :=
  match bs with
  | [] => none
  | b :: r =>
    if b = 9 ∨ b = 10 ∨ b = 11 ∨ b = 12 ∨ b = 13 ∨ b = 32 then some r
    else if b = 0x85 ∨ b = 0xA0 then
      match r with
      | b2 :: r2 => if b2 = 0xC2 then some r2 else none
      | [] => none
    else if b = 0x9F then
      match r with
      | b2 :: b3 :: r3 => if b2 = 0x81 ∧ b3 = 0xE2 then some r3 else none
      | _ => none
    else if (0x80 ≤ b ∧ b ≤ 0x8A) ∨ b = 0xA8 ∨ b = 0xA9 ∨ b = 0xAF then
      match r with
      | b2 :: b3 :: r3 =>
        if b2 = 0x80 ∧ b3 = 0xE2 then some r3
        else if b = 0x80 ∧ b2 = 0x9A ∧ b3 = 0xE1 then some r3
        else if b = 0x80 ∧ b2 = 0x80 ∧ b3 = 0xE3 then some r3
        else none
      | _ => none
    else none

/-- Iterate leading strips; the fuel only bounds the iteration count and
one byte is consumed per strip, so the length of the list is enough. -/
def trimLeftBAux : Nat → List Nat → List Nat
  | 0, bs => bs
  | n + 1, bs =>
    match stripWsEnc bs with
    | some r => trimLeftBAux n r
    | none => bs

/-- Leading half of Go strings.TrimSpace at byte level. -/
def trimLeftB (bs : List Nat) : List Nat := trimLeftBAux bs.length bs

/-- Iterate trailing strips on the reversed list. -/
def trimRightBAux : Nat → List Nat → List Nat
  | 0, bs => bs
  | n + 1, bs =>
    match stripWsEncRev bs with
    | some r => trimRightBAux n r
    | none => bs

/-- Trailing half of Go strings.TrimSpace at byte level. -/
def trimRightB (bs : List Nat) : List Nat :=
  (trimRightBAux bs.length bs.reverse).reverse

/-- Go strings.TrimSpace at byte level. -/
def goTrimSpaceB (bs : List Nat) : List Nat := trimRightB (trimLeftB bs)

/-- Byte-level strings.HasPrefix, first argument the string, second the
pattern. -/
def bytesStartWith : List Nat → List Nat → Bool
  | _, [] => true
  | [], _ :: _ => false
  | b :: bs, p :: ps => b == p && bytesStartWith bs ps

/-- Bytes occurring in the UTF-8 encodings of white-space runes; a byte
outside this set is never consumed by the trimming loops. -/
def isWsByte (b : Nat) : Bool :=
  b == 9 || b == 10 || b == 11 || b == 12 || b == 13 || b == 32 ||
  b == 0xC2 || b == 0x85 || b == 0xA0 || b == 0xE1 || b == 0x9A ||
  (decide (0x80 ≤ b) && decide (b ≤ 0x8A)) || b == 0xE2 || b == 0x81 || b == 0x9F ||
  b == 0xA8 || b == 0xA9 || b == 0xAF || b == 0xE3

/-- The bytes of the two recognized point markers: dash-space, and the
three UTF-8 bytes of the bullet glyph followed by a space. -/
def dashSp : List Nat := [45, 32]

/-- Bullet-glyph marker bytes. -/
def bulletSp : List Nat := [226, 128, 162, 32]

/-- The numbered-line test of extractBulletPoints (src/main.go line 167):
at least two bytes, first byte a digit between one and nine, second byte
a period. -/
def numShape : List Nat → Bool
  | b0 :: b1 :: _ => (decide (49 ≤ b0) && decide (b0 ≤ 57)) && b1 == 46
  | _ => false

/-- Everything after the first period-space pair: models
strings.SplitN(line, period-space, 2) returning a second part. -/
def afterDotSpaceB : List Nat → Option (List Nat)
  | [] => none
  | [_] => none
  | 46 :: 32 :: r => some r
  | _ :: r => afterDotSpaceB r

/-- The body of the line loop of extractBulletPoints (src/main.go lines
160-185): trim, skip blanks, test the three markers, strip two bytes for
dash and bullet markers, strip through the first period-space pair for
numbered lines, trim the remainder and keep it when non-empty. -/
def processLine (rawLine : List Nat) : Option (List Nat) :=
  let line := goTrimSpaceB rawLine
  if line = [] then none
  else if bytesStartWith line dashSp || bytesStartWith line bulletSp || numShape line then
    let cleanLine :=
      if bytesStartWith line dashSp then line.drop 2
      else if bytesStartWith line bulletSp then line.drop 2
      else if numShape line then
        match afterDotSpaceB line with
        | some r => r
        | none => line
      else line
    let cleanLine2 := goTrimSpaceB cleanLine
    if cleanLine2 = [] then none else some cleanLine2
  else none

/-- extractBulletPoints (src/main.go lines 156-188). -/
def extractBulletPoints (text : List Nat) : List (List Nat) :=
  (splitOnNL text).filterMap processLine

/-! Model of summarizeByCategory.  The remote client is an oracle from
the prompt to either a transport failure or a response carrying the
message contents of its choices (as byte strings, since the reply is fed
to the byte-level extractBulletPoints). -/

/-- Outcome of one CreateChatCompletion call. -/
inductive RemoteResult where
  | failure (msg : String)
  | response (choices : List (List Nat))

/-- The three error exits of summarizeByCategory (src/main.go lines
104-141), modelling the fmt.Errorf values. -/
inductive SummarizeError where
  | missingApiKey
  | apiCallError (category : String)
  | emptyResponse (category : String)
deriving DecidableEq

/-- A single quote character, kept out of string literals. -/
def sq : String := (Char.ofNat 39).toString

/-- Go strings.Join. -/
def joinWith (sep : String) : List String → String
  | [] => ""
  | [x] => x
  | x :: xs => x ++ sep ++ joinWith sep xs

/-- The prompt built for one category (src/main.go lines 117-119). -/
def promptFor (category : String) (titles : List String) : String :=
  "Please rewrite each of the following items in the category " ++ sq ++ category ++ sq ++
  " to be more concise and clear, but keep each item as a separate point without combining them:\n\n- " ++
  joinWith ("\n- ") titles

/-- The category loop of summarizeByCategory, over map entries in
iteration order: skip empty categories, abort on a failed call or an
empty choice list, otherwise record the parsed bullets (an empty parse is
recorded too; the warning log is a side effect outside the model). -/
def summarizeGo (remote : String → RemoteResult) : List (String × List String) → List (String × List (List Nat)) → Except SummarizeError (List (String × List (List Nat)))
  | [], acc => Except.ok acc
  | (category, titles) :: rest, acc =>
    if titles = [] then summarizeGo remote rest acc
    else
      match remote (promptFor category titles) with
      | RemoteResult.failure _ => Except.error (SummarizeError.apiCallError category)
      | RemoteResult.response choices =>
        match choices with
        | [] => Except.error (SummarizeError.emptyResponse category)
        | c0 :: _ => summarizeGo remote rest (acc ++ [(category, extractBulletPoints c0)])

/-- summarizeByCategory (src/main.go lines 103-154). -/
def summarizeByCategory (categories : List (String × List String)) (apiKey : String)
    (remote : String → RemoteResult) : Except SummarizeError (List (String × List (List Nat))) :=
  if apiKey = "" then Except.error SummarizeError.missingApiKey
  else summarizeGo remote categories []

/-- Spec-side value recorded for one category when the run succeeds. -/
def summarySpecEntry (remote : String → RemoteResult) (p : String × List String) : Option (String × List (List Nat)) :=
  if p.2 = [] then none
  else
    match remote (promptFor p.1 p.2) with
    | RemoteResult.response (c0 :: _) => some (p.1, extractBulletPoints c0)
    | _ => none

/-- The remote call for this category either fails outright or returns
no choices. -/
def badAt (remote : String → RemoteResult) (p : String × List String) : Prop :=
  match remote (promptFor p.1 p.2) with
  | RemoteResult.response (_ :: _) => False
  | _ => True

/-! Theorems.  Helper lemmas first, then one theorem per claim. -/

theorem walkExtract_open (name : String) : ∀ (rest : List MdNode) (acc : List String),
    walkExtract name rest true 2 acc = (true, acc ++ sectionItems rest) := by
  intro rest
  induction rest with
  | nil => intro acc; simp [walkExtract, sectionItems]
  | cons n rest ih =>
    intro acc
    cases n with
    | heading hl txt =>
      by_cases h2 : hl ≤ 2
      · have hnc : notCloses (MdNode.heading hl txt) = false := by
          simp [notCloses]; omega
        simp [walkExtract, h2, sectionItems, List.takeWhile_cons, hnc]
      · have hne : ¬ hl = 2 := by omega
        have hnc : notCloses (MdNode.heading hl txt) = true := by
          simp [notCloses]; omega
        simp [walkExtract, h2, hne, sectionItems, List.takeWhile_cons, hnc,
          List.filterMap_cons, ih]
    | listItem txt =>
      have hnc : notCloses (MdNode.listItem txt) = true := rfl
      cases hpi : processListItem txt with
      | some it =>
        simp [walkExtract, hpi, sectionItems, List.takeWhile_cons, hnc,
          List.filterMap_cons, ih]
      | none =>
        simp [walkExtract, hpi, sectionItems, List.takeWhile_cons, hnc,
          List.filterMap_cons, ih]

theorem walkExtract_seek (name : String) : ∀ (pre rest : List MdNode) (items : List String),
    (∀ n ∈ pre, isOpeningB name n = false) →
    walkExtract name (pre ++ rest) false 0 items = walkExtract name rest false 0 items := by
  intro pre
  induction pre with
  | nil => intro rest items _; rfl
  | cons n pre ih =>
    intro rest items hall
    have hn : isOpeningB name n = false := hall n (by simp)
    have hrest : ∀ m ∈ pre, isOpeningB name m = false := by
      intro m hm; exact hall m (by simp [hm])
    cases n with
    | heading hl txt =>
      have hno : ¬ (hl = 2 ∧ goTrimSpace txt = name) := by
        simp [isOpeningB] at hn
        intro hc; exact absurd hc.2 (hn hc.1)
      simp [walkExtract, hno, ih rest items hrest]
    | listItem txt =>
      simp [walkExtract, ih rest items hrest]

theorem walkExtract_stays_found (name : String) : ∀ (rest : List MdNode) (lvl : Nat) (acc : List String),
    (walkExtract name rest true lvl acc).1 = true := by
  intro rest
  induction rest with
  | nil => intro lvl acc; rfl
  | cons n rest ih =>
    intro lvl acc
    cases n with
    | heading hl txt =>
      by_cases h2 : hl ≤ lvl
      · simp [walkExtract, h2]
      · by_cases hm : hl = 2 ∧ goTrimSpace txt = name
        · obtain ⟨he, hname⟩ := hm
          subst he
          simp [walkExtract, h2, hname, ih]
        · simp [walkExtract, h2, hm, ih]
    | listItem txt =>
      cases hpi : processListItem txt with
      | some it => simp [walkExtract, hpi, ih]
      | none => simp [walkExtract, hpi, ih]

theorem walkExtract_notfound (name : String) : ∀ (nodes : List MdNode) (items : List String),
    ((walkExtract name nodes false 0 items).1 = false ↔ ∀ n ∈ nodes, isOpeningB name n = false) := by
  intro nodes
  induction nodes with
  | nil => intro items; simp [walkExtract]
  | cons n nodes ih =>
    intro items
    cases n with
    | heading hl txt =>
      by_cases hm : hl = 2 ∧ goTrimSpace txt = name
      · obtain ⟨he, hname⟩ := hm
        subst he
        have hred : walkExtract name (MdNode.heading 2 txt :: nodes) false 0 items =
            walkExtract name nodes true 2 items := by
          simp [walkExtract, hname]
        constructor
        · intro hw
          rw [hred, walkExtract_stays_found] at hw
          simp at hw
        · intro hall
          exact absurd (hall (MdNode.heading 2 txt) (by simp))
            (by simp [isOpeningB, hname])
      · have hop : isOpeningB name (MdNode.heading hl txt) = false := by
          simp [isOpeningB]
          intro h2; exact fun he => hm ⟨h2, he⟩
        simp [walkExtract, hm, ih, hop]
    | listItem txt =>
      simp [walkExtract, ih, isOpeningB]

/-- C1: for a document whose first opening event (a level-2 heading with
trimmed text equal to the requested name) is followed by post,
extractColumnItems returns exactly the payloads of the list items
between that heading and the first later heading of level at most 2 (or
the end of the document), in document order; events before the opening
heading contribute nothing and headings deeper than level 2 do not close
the section. -/
theorem extract_section_spec (name t : String) (pre post : List MdNode)
    (ht : goTrimSpace t = name) (hpre : ∀ n ∈ pre, isOpeningB name n = false) :
    extractColumnItems (pre ++ MdNode.heading 2 t :: post) name = some (sectionItems post) := by
  unfold extractColumnItems
  rw [walkExtract_seek name pre _ [] hpre]
  have hstep : walkExtract name (MdNode.heading 2 t :: post) false 0 [] =
      walkExtract name post true 2 [] := by
    simp [walkExtract, ht]
  rw [hstep, walkExtract_open]
  rfl

/-- Witness for C1 at a concrete document: a level-1 heading and an
early list item before the section, a level-3 heading inside it, and a
sibling level-2 section after it. -/
theorem extract_section_spec_witness :
    extractColumnItems
      [MdNode.heading 1 ("Board"), MdNode.listItem ("[x] early"),
       MdNode.heading 2 ("Done"), MdNode.listItem ("[x] #feat A"),
       MdNode.heading 3 ("Sub"), MdNode.listItem ("[x] B"),
       MdNode.heading 2 ("Next"), MdNode.listItem ("[x] C")] ("Done") =
      some ["#feat A", "B"] := by
  have h := extract_section_spec ("Done") ("Done")
    [MdNode.heading 1 ("Board"), MdNode.listItem ("[x] early")]
    [MdNode.listItem ("[x] #feat A"), MdNode.heading 3 ("Sub"), MdNode.listItem ("[x] B"),
     MdNode.heading 2 ("Next"), MdNode.listItem ("[x] C")]
    (by decide) (by decide)
  rw [show ([MdNode.heading 1 ("Board"), MdNode.listItem ("[x] early"),
       MdNode.heading 2 ("Done"), MdNode.listItem ("[x] #feat A"),
       MdNode.heading 3 ("Sub"), MdNode.listItem ("[x] B"),
       MdNode.heading 2 ("Next"), MdNode.listItem ("[x] C")] : List MdNode) =
      [MdNode.heading 1 ("Board"), MdNode.listItem ("[x] early")] ++
        MdNode.heading 2 ("Done") ::
          [MdNode.listItem ("[x] #feat A"), MdNode.heading 3 ("Sub"), MdNode.listItem ("[x] B"),
           MdNode.heading 2 ("Next"), MdNode.listItem ("[x] C")] from rfl, h]
  decide

/-- C2: extractColumnItems fails (returns none, the column-not-found
error, with no partial item list) exactly when no event of the document
is a level-2 heading whose trimmed text equals the requested name; and a
section that opens and is immediately closed by a heading of level at
most 2 yields the empty item list, not an error. -/
theorem extract_error_iff :
    (∀ (nodes : List MdNode) (name : String),
      (extractColumnItems nodes name = none ↔ ∀ n ∈ nodes, isOpeningB name n = false)) ∧
    (∀ (name t txt : String) (pre rest : List MdNode) (hl : Nat),
      goTrimSpace t = name → (∀ n ∈ pre, isOpeningB name n = false) → hl ≤ 2 →
      extractColumnItems (pre ++ MdNode.heading 2 t :: MdNode.heading hl txt :: rest) name =
        some []) := by
  constructor
  · intro nodes name
    have hiff : extractColumnItems nodes name = none ↔
        (walkExtract name nodes false 0 []).1 = false := by
      unfold extractColumnItems
      rcases hw : walkExtract name nodes false 0 [] with ⟨fd, its⟩
      cases fd <;> simp
    rw [hiff, walkExtract_notfound]
  · intro name t txt pre rest hl ht hpre hle
    unfold extractColumnItems
    rw [walkExtract_seek name pre _ [] hpre]
    have hstep : walkExtract name (MdNode.heading 2 t :: MdNode.heading hl txt :: rest) false 0 [] =
        walkExtract name (MdNode.heading hl txt :: rest) true 2 [] := by
      simp [walkExtract, ht]
    rw [hstep]
    simp [walkExtract, hle]

/-- Witness for C2: a document with no Done heading fails, and an
immediately closed Done section returns the empty list. -/
theorem extract_error_iff_witness :
    extractColumnItems [MdNode.heading 2 ("Backlog"), MdNode.listItem ("[x] a")] ("Done") = none ∧
    extractColumnItems [MdNode.heading 2 ("Done"), MdNode.heading 2 ("Backlog"),
      MdNode.listItem ("[x] a")] ("Done") = some [] := by
  constructor
  · exact (extract_error_iff.1 [MdNode.heading 2 ("Backlog"), MdNode.listItem ("[x] a")]
      ("Done")).2 (by decide)
  · exact extract_error_iff.2 ("Done") ("Done") ("Backlog") [] [MdNode.listItem ("[x] a")] 2
      (by decide) (by decide) (by decide)

theorem nonspace_ne_space {c : Char} (h : goIsSpace c = false) : (c == ' ') = false := by
  by_contra hb
  have : c = ' ' := by
    have := eq_of_beq (a := c) (b := ' ') (by revert hb; cases c == ' ' <;> simp)
    exact this
  subst this
  simp [goIsSpace] at h

theorem trimLSp_space_cons (l : List Char) : trimLSp (' ' :: l) = trimLSp l := by
  simp [trimLSp, List.dropWhile_cons]

theorem trimLSp_nonspace_cons {c : Char} (l : List Char) (h : (c == ' ') = false) :
    trimLSp (c :: l) = c :: l := by
  simp [trimLSp, List.dropWhile_cons, h]

theorem trimRSp_nonspace_cons {c : Char} (l : List Char) (h : (c == ' ') = false) :
    trimRSp (c :: l) = c :: trimRSp l := by
  unfold trimRSp
  rw [List.reverse_cons, List.dropWhile_append]
  by_cases he : (l.reverse.dropWhile (fun d => d == ' ')).isEmpty
  · rw [if_pos he]
    rw [List.isEmpty_iff] at he
    simp [List.dropWhile_cons, h, he]
  · rw [if_neg he]
    simp

theorem trimRSp_space_cons (l : List Char) (h : ¬ trimRSp l = []) :
    trimRSp (' ' :: l) = ' ' :: trimRSp l := by
  unfold trimRSp at *
  rw [List.reverse_cons, List.dropWhile_append]
  have hne : ¬ (l.reverse.dropWhile (fun d => d == ' ')).isEmpty := by
    intro hemp
    rw [List.isEmpty_iff] at hemp
    simp [hemp] at h
  rw [if_neg hne]
  simp

theorem trimRSp_space_cons_nil (l : List Char) (h : trimRSp l = []) :
    trimRSp (' ' :: l) = [] := by
  unfold trimRSp at *
  have hemp : l.reverse.dropWhile (fun d => d == ' ') = [] := by
    have := congrArg List.reverse h
    simpa using this
  rw [List.reverse_cons, List.dropWhile_append, if_pos (by simp [hemp])]
  simp [List.dropWhile_cons]

theorem collapse_true_cases (cs : List Char) :
    collapseWSAux cs false = collapseWSAux cs true ∨
    collapseWSAux cs false = ' ' :: collapseWSAux cs true := by
  cases cs with
  | nil => left; rfl
  | cons c cs =>
    by_cases h : goIsSpace c = true
    · right; simp [collapseWSAux, h]
    · left; simp [collapseWSAux, h]

theorem trimLSp_collapse_true (cs : List Char) :
    trimLSp (collapseWSAux cs true) = collapseWSAux cs true := by
  induction cs with
  | nil => rfl
  | cons c cs ih =>
    by_cases h : goIsSpace c = true
    · simp [collapseWSAux, h, ih]
    · simp only [Bool.not_eq_true] at h
      simp [collapseWSAux, h, trimLSp_nonspace_cons _ (nonspace_ne_space h)]

theorem trim_collapse_false_true (cs : List Char) :
    trimRSp (trimLSp (collapseWSAux cs false)) = trimRSp (collapseWSAux cs true) := by
  rcases collapse_true_cases cs with h | h
  · rw [h, trimLSp_collapse_true]
  · rw [h, trimLSp_space_cons, trimLSp_collapse_true]

theorem goFields_ne_nil : ∀ (cs acc w : List Char), w ∈ goFieldsAux cs acc → ¬ w = [] := by
  intro cs
  induction cs with
  | nil =>
    intro acc w hw
    by_cases ha : acc = []
    · simp [goFieldsAux, ha] at hw
    · simp [goFieldsAux, ha] at hw
      subst hw; exact ha
  | cons c cs ih =>
    intro acc w hw
    by_cases hs : goIsSpace c = true
    · by_cases ha : acc = []
      · simp [goFieldsAux, hs, ha] at hw
        exact ih [] w hw
      · simp [goFieldsAux, hs, ha] at hw
        rcases hw with hw | hw
        · subst hw; exact ha
        · exact ih [] w hw
    · simp only [Bool.not_eq_true] at hs
      simp [goFieldsAux, hs] at hw
      exact ih (acc ++ [c]) w hw

theorem joinSp_ne_nil (w : List Char) (ws : List (List Char)) (h : ¬ w = []) :
    ¬ joinSp (w :: ws) = [] := by
  cases ws with
  | nil => simpa [joinSp] using h
  | cons v ws => simp [joinSp, h]

theorem fieldsJoin_collapse : ∀ cs : List Char,
    joinSp (goFieldsAux cs []) = trimRSp (trimLSp (collapseWSAux cs false)) ∧
    ∀ acc, ¬ acc = [] → joinSp (goFieldsAux cs acc) = acc ++ trimRSp (collapseWSAux cs false) := by
  intro cs
  induction cs with
  | nil =>
    constructor
    · rfl
    · intro acc ha
      simp [goFieldsAux, ha, joinSp, collapseWSAux, trimRSp]
  | cons c cs ih =>
    obtain ⟨ihP, ihQ⟩ := ih
    by_cases hs : goIsSpace c = true
    · constructor
      · rw [show goFieldsAux (c :: cs) [] = goFieldsAux cs [] by simp [goFieldsAux, hs]]
        rw [show collapseWSAux (c :: cs) false = ' ' :: collapseWSAux cs true by
          simp [collapseWSAux, hs]]
        rw [trimLSp_space_cons, trimLSp_collapse_true, ihP, trim_collapse_false_true]
      · intro acc ha
        rw [show goFieldsAux (c :: cs) acc = acc :: goFieldsAux cs [] by
          simp [goFieldsAux, hs, ha]]
        rw [show collapseWSAux (c :: cs) false = ' ' :: collapseWSAux cs true by
          simp [collapseWSAux, hs]]
        have hP : joinSp (goFieldsAux cs []) = trimRSp (collapseWSAux cs true) := by
          rw [ihP, trim_collapse_false_true]
        cases hL : goFieldsAux cs [] with
        | nil =>
          have hnil : trimRSp (collapseWSAux cs true) = [] := by
            rw [← hP, hL]; rfl
          rw [trimRSp_space_cons_nil _ hnil]
          simp [joinSp]
        | cons w ws =>
          have hwne : ¬ w = [] := goFields_ne_nil cs [] w (by rw [hL]; simp)
          have hne : ¬ trimRSp (collapseWSAux cs true) = [] := by
            rw [← hP, hL]
            exact joinSp_ne_nil w ws hwne
          rw [trimRSp_space_cons _ hne]
          rw [show joinSp (acc :: w :: ws) = acc ++ (' ' :: joinSp (w :: ws)) from rfl]
          rw [← hL, hP]
    · simp only [Bool.not_eq_true] at hs
      have hcs : (c == ' ') = false := nonspace_ne_space hs
      constructor
      · rw [show goFieldsAux (c :: cs) [] = goFieldsAux cs [c] by simp [goFieldsAux, hs]]
        rw [show collapseWSAux (c :: cs) false = c :: collapseWSAux cs false by
          simp [collapseWSAux, hs]]
        rw [trimLSp_nonspace_cons _ hcs, trimRSp_nonspace_cons _ hcs]
        rw [ihQ [c] (by simp)]
        rfl
      · intro acc ha
        rw [show goFieldsAux (c :: cs) acc = goFieldsAux cs (acc ++ [c]) by
          simp [goFieldsAux, hs]]
        rw [show collapseWSAux (c :: cs) false = c :: collapseWSAux cs false by
          simp [collapseWSAux, hs]]
        rw [trimRSp_nonspace_cons _ hcs]
        rw [ihQ (acc ++ [c]) (by simp)]
        simp

/-- C3: for every list item text, the extracted payload is exactly what
the specification describes: when the text contains both brackets, take
everything after the first right bracket, collapse white-space runs to
single spaces and trim the ends, discarding the item when this is empty;
when either bracket is missing, discard the item. -/
theorem checklist_payload_spec (t : String) :
    processListItem t =
      (if '[' ∈ t.toList ∧ ']' ∈ t.toList then
        (if specNormalize (afterRB t.toList) = [] then none
         else some (specNormalize (afterRB t.toList)).asString)
       else none) := by
  by_cases hb : '[' ∈ t.toList ∧ ']' ∈ t.toList
  · have h1 : t.toList.contains '[' = true := List.elem_iff.mpr hb.1
    have h2 : t.toList.contains ']' = true := List.elem_iff.mpr hb.2
    rw [if_pos hb]
    show (if (t.toList.contains '[' && t.toList.contains ']') = true then
        (if afterRB t.toList = [] then none
         else
          (if joinSp (goFieldsAux (afterRB t.toList) []) = [] then none
           else some (joinSp (goFieldsAux (afterRB t.toList) [])).asString))
       else none) = _
    rw [if_pos (by rw [h1, h2]; rfl)]
    unfold specNormalize
    by_cases hrest : afterRB t.toList = []
    · rw [if_pos hrest, if_pos (by rw [hrest]; rfl)]
    · rw [if_neg hrest, (fieldsJoin_collapse (afterRB t.toList)).1]
  · rw [if_neg hb]
    show (if (t.toList.contains '[' && t.toList.contains ']') = true then
        (if afterRB t.toList = [] then none
         else
          (if joinSp (goFieldsAux (afterRB t.toList) []) = [] then none
           else some (joinSp (goFieldsAux (afterRB t.toList) [])).asString))
       else none) = none
    rw [if_neg (by
      intro hc
      rw [Bool.and_eq_true] at hc
      exact hb ⟨List.elem_iff.mp hc.1, List.elem_iff.mp hc.2⟩)]

theorem categorize_fold (titles : List String) : ∀ (a b c d : List String),
    titles.foldl catStep [("features", a), ("bugs", b), ("planning/design", c), ("other", d)] =
      [("features", a ++ titles.filter (fun t => categoryFor t = "features")),
       ("bugs", b ++ titles.filter (fun t => categoryFor t = "bugs")),
       ("planning/design", c ++ titles.filter (fun t => categoryFor t = "planning/design")),
       ("other", d ++ titles.filter (fun t => categoryFor t = "other"))] := by
  induction titles with
  | nil => intro a b c d; simp
  | cons t ts ih =>
    intro a b c d
    simp only [List.foldl_cons]
    have hcatShow : categoryFor t =
        (if (listStartsWith ((goToLower t).toList) ("feat".toList) ||
              listStartsWith ((goToLower t).toList) ("feature".toList)) = true then "features"
         else if listStartsWith ((goToLower t).toList) ("bug".toList) = true then "bugs"
         else if (listStartsWith ((goToLower t).toList) ("plan".toList) ||
              listStartsWith ((goToLower t).toList) ("design".toList)) = true then "planning/design"
         else "other") := rfl
    have hstepShow : catStep [("features", a), ("bugs", b), ("planning/design", c), ("other", d)] t =
        (if (listStartsWith ((goToLower t).toList) ("feat".toList) ||
              listStartsWith ((goToLower t).toList) ("feature".toList)) = true then
          mapUpd [("features", a), ("bugs", b), ("planning/design", c), ("other", d)] "features" t
         else if listStartsWith ((goToLower t).toList) ("bug".toList) = true then
          mapUpd [("features", a), ("bugs", b), ("planning/design", c), ("other", d)] "bugs" t
         else if (listStartsWith ((goToLower t).toList) ("plan".toList) ||
              listStartsWith ((goToLower t).toList) ("design".toList)) = true then
          mapUpd [("features", a), ("bugs", b), ("planning/design", c), ("other", d)] "planning/design" t
         else
          mapUpd [("features", a), ("bugs", b), ("planning/design", c), ("other", d)] "other" t) := rfl
    by_cases h1 : (listStartsWith ((goToLower t).toList) ("feat".toList) ||
        listStartsWith ((goToLower t).toList) ("feature".toList)) = true
    · have hcat : categoryFor t = "features" := by rw [hcatShow, if_pos h1]
      rw [hstepShow, if_pos h1]
      rw [show mapUpd [("features", a), ("bugs", b), ("planning/design", c), ("other", d)]
          ("features") t =
          [("features", a ++ [t]), ("bugs", b), ("planning/design", c), ("other", d)] by
        simp [mapUpd]]
      rw [ih]
      simp [List.filter_cons, hcat]
    · by_cases h2 : listStartsWith ((goToLower t).toList) ("bug".toList) = true
      · have hcat : categoryFor t = "bugs" := by rw [hcatShow, if_neg h1, if_pos h2]
        rw [hstepShow, if_neg h1, if_pos h2]
        rw [show mapUpd [("features", a), ("bugs", b), ("planning/design", c), ("other", d)]
            ("bugs") t =
            [("features", a), ("bugs", b ++ [t]), ("planning/design", c), ("other", d)] by
          simp [mapUpd]]
        rw [ih]
        simp [List.filter_cons, hcat]
      · by_cases h3 : (listStartsWith ((goToLower t).toList) ("plan".toList) ||
            listStartsWith ((goToLower t).toList) ("design".toList)) = true
        · have hcat : categoryFor t = "planning/design" := by
            rw [hcatShow, if_neg h1, if_neg h2, if_pos h3]
          rw [hstepShow, if_neg h1, if_neg h2, if_pos h3]
          rw [show mapUpd [("features", a), ("bugs", b), ("planning/design", c), ("other", d)]
              ("planning/design") t =
              [("features", a), ("bugs", b), ("planning/design", c ++ [t]), ("other", d)] by
            simp [mapUpd]]
          rw [ih]
          simp [List.filter_cons, hcat]
        · have hcat : categoryFor t = "other" := by
            rw [hcatShow, if_neg h1, if_neg h2, if_neg h3]
          rw [hstepShow, if_neg h1, if_neg h2, if_neg h3]
          rw [show mapUpd [("features", a), ("bugs", b), ("planning/design", c), ("other", d)]
              ("other") t =
              [("features", a), ("bugs", b), ("planning/design", c), ("other", d ++ [t])] by
            simp [mapUpd]]
          rw [ih]
          simp [List.filter_cons, hcat]

/-- C4: categorizeTitles realizes the prefix policy: the result has
exactly the four keys features, bugs, planning slash design and other,
in that fixed entry order, every key present even when its list is
empty, and each key holds exactly the input items the prefix policy
files under it, in input order. -/
theorem categorize_prefix_spec (titles : List String) :
    categorizeTitles titles =
      [("features", titles.filter (fun t => categoryFor t = "features")),
       ("bugs", titles.filter (fun t => categoryFor t = "bugs")),
       ("planning/design", titles.filter (fun t => categoryFor t = "planning/design")),
       ("other", titles.filter (fun t => categoryFor t = "other"))] := by
  have h := categorize_fold titles [] [] [] []
  simpa [categorizeTitles, initCategories] using h

theorem categoryFor_cases (t : String) :
    categoryFor t = "features" ∨ categoryFor t = "bugs" ∨
    categoryFor t = "planning/design" ∨ categoryFor t = "other" := by
  unfold categoryFor
  dsimp only
  split_ifs <;> simp

theorem filter_count (ts : List String) :
    (ts.filter (fun t => categoryFor t = "features")).length +
    (ts.filter (fun t => categoryFor t = "bugs")).length +
    (ts.filter (fun t => categoryFor t = "planning/design")).length +
    (ts.filter (fun t => categoryFor t = "other")).length = ts.length := by
  induction ts with
  | nil => rfl
  | cons t ts ih =>
    have hfb : ("features" : String) ≠ "bugs" := by decide
    have hfp : ("features" : String) ≠ "planning/design" := by decide
    have hfo : ("features" : String) ≠ "other" := by decide
    have hbf : ("bugs" : String) ≠ "features" := by decide
    have hbp : ("bugs" : String) ≠ "planning/design" := by decide
    have hbo : ("bugs" : String) ≠ "other" := by decide
    have hpf : ("planning/design" : String) ≠ "features" := by decide
    have hpb : ("planning/design" : String) ≠ "bugs" := by decide
    have hpo : ("planning/design" : String) ≠ "other" := by decide
    have hof : ("other" : String) ≠ "features" := by decide
    have hob : ("other" : String) ≠ "bugs" := by decide
    have hop : ("other" : String) ≠ "planning/design" := by decide
    rcases categoryFor_cases t with h | h | h | h <;>
      simp only [List.filter_cons, h, List.length_cons] <;>
      simp [hfb, hfp, hfo, hbf, hbp, hbo, hpf, hpb, hpo, hof, hob, hop] <;>
      omega

/-- C9: categorizeTitles is a pure total function: two runs on equal
inputs give identical category contents and ordering, and every run
files every input item (the four category lists together hold exactly as
many items as the input), so no input makes it fail. -/
theorem categorize_total_deterministic (ts us : List String) (h : ts = us) :
    categorizeTitles ts = categorizeTitles us ∧
    ((categorizeTitles ts).map Prod.snd).flatten.length = ts.length := by
  subst h
  refine ⟨rfl, ?_⟩
  have hspec := categorize_fold ts [] [] [] []
  have hc := filter_count ts
  rw [show categorizeTitles ts = ts.foldl catStep initCategories from rfl,
    show initCategories = [("features", []), ("bugs", []), ("planning/design", []),
      ("other", [])] from rfl, hspec]
  simp only [List.map_cons, List.map_nil, List.flatten_cons, List.flatten_nil,
    List.append_nil, List.length_append, List.nil_append]
  omega

/-- Witness for C9 at a concrete input list. -/
theorem categorize_total_deterministic_witness :
    categorizeTitles ["feat a", "zzz"] = categorizeTitles ["feat a", "zzz"] ∧
    ((categorizeTitles ["feat a", "zzz"]).map Prod.snd).flatten.length = 2 := by
  have h := categorize_total_deterministic ["feat a", "zzz"] ["feat a", "zzz"] rfl
  simpa using h

/-- C5 counterexample: on the board of the end-to-end scenario the
extraction half of the claim holds, but the categorization half fails on
the code: categorizeTitles tests literal prefixes of the lowercased
text, the extracted items start with a hash sign, so the features and
bugs lists both stay empty, contradicting the claimed placement. -/
theorem endToEnd_tag_claim_false :
    extractColumnItems
      [MdNode.heading 2 ("Done"), MdNode.listItem ("[x] #feat Add caching layer"),
       MdNode.listItem ("[x] #bug Fix race condition"), MdNode.heading 2 ("Backlog"),
       MdNode.listItem ("[ ] Not in scope")] ("Done") =
      some ["#feat Add caching layer", "#bug Fix race condition"] ∧
    lookupCat (categorizeTitles ["#feat Add caching layer", "#bug Fix race condition"])
      ("features") = [] ∧
    lookupCat (categorizeTitles ["#feat Add caching layer", "#bug Fix race condition"])
      ("bugs") = [] := by
  decide

/-- C5 amended: extraction yields exactly the two Done items, the
Backlog item never appears, and the prefix-policy categorization files
both items under other, leaving features, bugs and planning slash
design empty. -/
theorem endToEnd_prefix_amended :
    extractColumnItems
      [MdNode.heading 2 ("Done"), MdNode.listItem ("[x] #feat Add caching layer"),
       MdNode.listItem ("[x] #bug Fix race condition"), MdNode.heading 2 ("Backlog"),
       MdNode.listItem ("[ ] Not in scope")] ("Done") =
      some ["#feat Add caching layer", "#bug Fix race condition"] ∧
    categorizeTitles ["#feat Add caching layer", "#bug Fix race condition"] =
      [("features", []), ("bugs", []), ("planning/design", []),
       ("other", ["#feat Add caching layer", "#bug Fix race condition"])] := by
  decide

theorem stripWsEncRev_keeps (bs r : List Nat) (x : Nat) (h : stripWsEncRev bs = some r)
    (hx : x ∈ bs) (hw : isWsByte x = false) : x ∈ r := by
  simp only [isWsByte, Bool.or_eq_false_iff, Bool.and_eq_false_iff, beq_eq_false_iff_ne,
    ne_eq, decide_eq_false_iff_not, not_le] at hw
  cases bs with
  | nil => simp [stripWsEncRev] at h
  | cons b rest =>
    simp only [stripWsEncRev] at h
    by_cases c1 : b = 9 ∨ b = 10 ∨ b = 11 ∨ b = 12 ∨ b = 13 ∨ b = 32
    · rw [if_pos c1] at h
      injection h with h
      subst h
      rcases List.mem_cons.mp hx with he | he
      · subst he; exfalso; omega
      · exact he
    · rw [if_neg c1] at h
      by_cases c2 : b = 0x85 ∨ b = 0xA0
      · rw [if_pos c2] at h
        cases rest with
        | nil => simp at h
        | cons b2 rest2 =>
          dsimp only at h
          by_cases c3 : b2 = 0xC2
          · rw [if_pos c3] at h
            injection h with h
            subst h
            rcases List.mem_cons.mp hx with he | he
            · subst he; exfalso; omega
            · rcases List.mem_cons.mp he with he2 | he2
              · subst he2; exfalso; omega
              · exact he2
          · rw [if_neg c3] at h; simp at h
      · rw [if_neg c2] at h
        by_cases c3 : b = 0x9F
        · rw [if_pos c3] at h
          match rest, hx with
          | [], hx => simp at h
          | [b2], hx => simp at h
          | b2 :: b3 :: rest3, hx =>
            dsimp only at h
            by_cases c4 : b2 = 0x81 ∧ b3 = 0xE2
            · rw [if_pos c4] at h
              injection h with h
              subst h
              rcases List.mem_cons.mp hx with he | he
              · subst he; exfalso; omega
              · rcases List.mem_cons.mp he with he2 | he2
                · subst he2; exfalso; exact absurd c4.1.symm (by omega)
                · rcases List.mem_cons.mp he2 with he3 | he3
                  · subst he3; exfalso; exact absurd c4.2.symm (by omega)
                  · exact he3
            · rw [if_neg c4] at h; simp at h
        · rw [if_neg c3] at h
          by_cases c5 : (0x80 ≤ b ∧ b ≤ 0x8A) ∨ b = 0xA8 ∨ b = 0xA9 ∨ b = 0xAF
          · rw [if_pos c5] at h
            match rest, hx with
            | [], hx => simp at h
            | [b2], hx => simp at h
            | b2 :: b3 :: rest3, hx =>
              dsimp only at h
              have hmem : x = b ∨ x = b2 ∨ x = b3 ∨ x ∈ rest3 := by
                rcases List.mem_cons.mp hx with he | he
                · exact Or.inl he
                · rcases List.mem_cons.mp he with he2 | he2
                  · exact Or.inr (Or.inl he2)
                  · rcases List.mem_cons.mp he2 with he3 | he3
                    · exact Or.inr (Or.inr (Or.inl he3))
                    · exact Or.inr (Or.inr (Or.inr he3))
              by_cases c6 : b2 = 0x80 ∧ b3 = 0xE2
              · rw [if_pos c6] at h
                injection h with h
                subst h
                rcases hmem with he | he | he | he
                · subst he; exfalso; omega
                · subst he; exfalso; exact absurd c6.1.symm (by omega)
                · subst he; exfalso; exact absurd c6.2.symm (by omega)
                · exact he
              · rw [if_neg c6] at h
                by_cases c7 : b = 0x80 ∧ b2 = 0x9A ∧ b3 = 0xE1
                · rw [if_pos c7] at h
                  injection h with h
                  subst h
                  rcases hmem with he | he | he | he
                  · subst he; exfalso; omega
                  · subst he; exfalso; exact absurd c7.2.1.symm (by omega)
                  · subst he; exfalso; exact absurd c7.2.2.symm (by omega)
                  · exact he
                · rw [if_neg c7] at h
                  by_cases c8 : b = 0x80 ∧ b2 = 0x80 ∧ b3 = 0xE3
                  · rw [if_pos c8] at h
                    injection h with h
                    subst h
                    rcases hmem with he | he | he | he
                    · subst he; exfalso; omega
                    · subst he; exfalso; exact absurd c8.2.1.symm (by omega)
                    · subst he; exfalso; exact absurd c8.2.2.symm (by omega)
                    · exact he
                  · rw [if_neg c8] at h; simp at h
          · rw [if_neg c5] at h; simp at h

end WorklogGen

namespace WorklogGen

theorem trimRightBAux_keeps : ∀ (n : Nat) (bs : List Nat) (x : Nat), x ∈ bs → isWsByte x = false →
    x ∈ trimRightBAux n bs := by
  intro n
  induction n with
  | zero => intro bs x hx _; exact hx
  | succ n ih =>
    intro bs x hx hw
    simp only [trimRightBAux]
    cases h : stripWsEncRev bs with
    | none => exact hx
    | some r => exact ih r x (stripWsEncRev_keeps bs r x h hx hw) hw

theorem trimRightB_ne_nil (bs : List Nat) (x : Nat) (hx : x ∈ bs) (hw : isWsByte x = false) :
    ¬ trimRightB bs = [] := by
  intro h
  have hmem : x ∈ trimRightBAux bs.length bs.reverse :=
    trimRightBAux_keeps bs.length bs.reverse x (by simpa using hx) hw
  have h2 : trimRightBAux bs.length bs.reverse = [] := by
    have := congrArg List.reverse h
    simpa [trimRightB] using this
  rw [h2] at hmem
  simp at hmem

theorem stripWsEnc_digit (b : Nat) (bs : List Nat) (h1 : 49 ≤ b) (h2 : b ≤ 57) :
    stripWsEnc (b :: bs) = none := by
  simp only [stripWsEnc]
  rw [if_neg (by omega), if_neg (by omega), if_neg (by omega), if_neg (by omega),
    if_neg (by omega)]

theorem trimLeftB_digit (b : Nat) (bs : List Nat) (h1 : 49 ≤ b) (h2 : b ≤ 57) :
    trimLeftB (b :: bs) = b :: bs := by
  show trimLeftBAux (b :: bs).length (b :: bs) = b :: bs
  rw [show (b :: bs).length = bs.length + 1 from rfl]
  simp only [trimLeftBAux, stripWsEnc_digit b bs h1 h2]

theorem digit_not_wsByte (b : Nat) (h1 : 49 ≤ b) (h2 : b ≤ 57) : isWsByte b = false := by
  simp only [isWsByte, Bool.or_eq_false_iff, Bool.and_eq_false_iff, beq_eq_false_iff_ne,
    ne_eq, decide_eq_false_iff_not, not_le]
  omega

/-- C10: a line that does not carry a dash or bullet marker is kept only
when its trimmed form starts with a digit between one and nine followed
immediately by a period byte (so lines starting with a zero-period or a
multi-digit number such as ten-period are dropped), and a recognized
numbered line with no period-space separator is kept whole, its numeric
prefix not stripped. -/
theorem numbered_line_spec (l t : List Nat) (ht : goTrimSpaceB l = t) :
    (bytesStartWith t dashSp = false → bytesStartWith t bulletSp = false →
      numShape t = false → processLine l = none) ∧
    (numShape t = true → afterDotSpaceB t = none → processLine l = some (goTrimSpaceB t)) := by
  constructor
  · intro hd hb hn
    unfold processLine
    rw [ht]
    by_cases hnil : t = []
    · rw [if_pos hnil]
    · rw [if_neg hnil, hd, hb, hn]
      simp
  · intro hn hds
    obtain ⟨b0, b1, rest, hts, h49, h57, h46⟩ :
        ∃ b0 b1 rest, t = b0 :: b1 :: rest ∧ 49 ≤ b0 ∧ b0 ≤ 57 ∧ b1 = 46 := by
      match t, hn with
      | b0 :: b1 :: rest, hn =>
        refine ⟨b0, b1, rest, rfl, ?_, ?_, ?_⟩ <;>
          (simp only [numShape, Bool.and_eq_true, beq_iff_eq, decide_eq_true_eq] at hn) <;>
          omega
    have hd : bytesStartWith t dashSp = false := by
      rw [hts]
      show (b0 == 45 && bytesStartWith (b1 :: rest) [32]) = false
      rw [show (b0 == 45) = false from by simp; omega]
      rfl
    have hb : bytesStartWith t bulletSp = false := by
      rw [hts]
      show (b0 == 226 && bytesStartWith (b1 :: rest) [128, 162, 32]) = false
      rw [show (b0 == 226) = false from by simp; omega]
      rfl
    have htrim : goTrimSpaceB t = trimRightB t := by
      unfold goTrimSpaceB
      rw [hts, trimLeftB_digit b0 (b1 :: rest) h49 h57]
    have hne : ¬ goTrimSpaceB t = [] := by
      rw [htrim]
      exact trimRightB_ne_nil t b0 (by rw [hts]; simp) (digit_not_wsByte b0 h49 h57)
    unfold processLine
    rw [ht]
    rw [if_neg (by rw [hts]; simp), hd, hb, hn]
    simp only [Bool.false_or, Bool.or_true, if_true, Bool.false_eq_true, if_false, hds]
    rw [if_neg hne]

/-- Witness for C10: the lines ten-period and zero-period are dropped
and the line of the form digit-period-word is kept unstripped. -/
theorem numbered_line_spec_witness :
    processLine (strBytes ("10. ten")) = none ∧
    processLine (strBytes ("0. zero")) = none ∧
    processLine (strBytes ("1.Point")) = some (strBytes ("1.Point")) := by
  refine ⟨?_, ?_, ?_⟩
  · exact (numbered_line_spec (strBytes ("10. ten")) _ rfl).1 (by decide) (by decide) (by decide)
  · exact (numbered_line_spec (strBytes ("0. zero")) _ rfl).1 (by decide) (by decide) (by decide)
  · have h := (numbered_line_spec (strBytes ("1.Point")) _ rfl).2 (by decide) (by decide)
    rw [h]
    decide


theorem reportStep_shift (l : List (String × List String)) : ∀ (s t : String),
    l.foldl reportStep (s ++ t) = s ++ l.foldl reportStep t := by
  induction l with
  | nil => intro s t; rfl
  | cons p l ih =>
    intro s t
    by_cases hp : p.2 = []
    · simp only [List.foldl_cons, reportStep, if_pos hp]
      exact ih s t
    · simp only [List.foldl_cons, reportStep, if_neg hp]
      simp only [String.append_assoc]
      rw [ih]

theorem foldl_reportStep_filter (l : List (String × List String)) : ∀ (t : String),
    l.foldl reportStep t = (l.filter (fun p => !p.2.isEmpty)).foldl reportStep t := by
  induction l with
  | nil => intro t; rfl
  | cons p l ih =>
    intro t
    by_cases hp : p.2 = []
    · have hskip : reportStep t p = t := by simp [reportStep, hp]
      have hfil : (!p.2.isEmpty) = false := by simp [hp]
      simp only [List.foldl_cons, List.filter_cons, hfil, Bool.false_eq_true, if_false,
        hskip]
      exact ih t
    · have hfil : (!p.2.isEmpty) = true := by simp [hp]
      simp only [List.foldl_cons, List.filter_cons, hfil, if_true]
      exact ih (reportStep t p)

/-- C7: buildMarkdownSummary on the empty summaries map for week five of
year 2024 is exactly the bare header block; in general every entry with
an empty bullet list (and every absent category) contributes nothing to
the output, and the week-year header line is always emitted first. -/
theorem report_header_spec (summaries : List (String × List String)) (year week : Int) :
    buildMarkdownSummary [] 2024 5 = "## Week 5 2024\n\n" ∧
    buildMarkdownSummary summaries year week =
      buildMarkdownSummary (summaries.filter (fun p => !p.2.isEmpty)) year week ∧
    ∃ rest, buildMarkdownSummary summaries year week =
      "## Week " ++ toString week ++ " " ++ toString year ++ "\n\n" ++ rest := by
  refine ⟨by decide, ?_, ?_⟩
  · exact foldl_reportStep_filter summaries _
  · refine ⟨summaries.foldl reportStep "", ?_⟩
    show summaries.foldl reportStep
        ("## Week " ++ toString week ++ " " ++ toString year ++ "\n\n") = _
    rw [show ("## Week " ++ toString week ++ " " ++ toString year ++ "\n\n" : String) =
        ("## Week " ++ toString week ++ " " ++ toString year ++ "\n\n") ++ "" from by simp]
    rw [reportStep_shift]
    simp

/-- C6: the code keeps bullet-glyph lines but slices only two bytes off
the three-byte glyph, so the kept text begins with the stray trailing
byte of the glyph followed by the original space instead of the cleanly
stripped remainder; dash-marked lines are stripped and trimmed as the
claim describes and plain prose lines are dropped. -/
theorem bulletGlyph_slice_bug :
    extractBulletPoints (strBytes ("• Point one")) = [162 :: strBytes (" Point one")] ∧
    ¬ extractBulletPoints (strBytes ("• Point one")) = [strBytes ("Point one")] ∧
    extractBulletPoints (strBytes ("Summary line.\n- Point one\n- Point two\nTrailing prose")) =
      [strBytes ("Point one"), strBytes ("Point two")] := by
  decide


theorem summarizeGo_ok (remote : String → RemoteResult) :
    ∀ (cats : List (String × List String)) (acc res : List (String × List (List Nat))),
    summarizeGo remote cats acc = Except.ok res →
    res = acc ++ cats.filterMap (summarySpecEntry remote) := by
  intro cats
  induction cats with
  | nil =>
    intro acc res h
    simp only [summarizeGo] at h
    injection h with h
    subst h
    simp
  | cons p cats ih =>
    obtain ⟨category, titles⟩ := p
    intro acc res h
    by_cases hemp : titles = []
    · rw [show summarizeGo remote ((category, titles) :: cats) acc =
          summarizeGo remote cats acc from by
        simp only [summarizeGo]; rw [if_pos hemp]] at h
      rw [ih acc res h]
      simp [summarySpecEntry, hemp, List.filterMap_cons]
    · cases hr : remote (promptFor category titles) with
      | failure msg =>
        rw [show summarizeGo remote ((category, titles) :: cats) acc =
            Except.error (SummarizeError.apiCallError category) from by
          simp only [summarizeGo]; rw [if_neg hemp, hr]] at h
        exact absurd h (by simp)
      | response choices =>
        cases choices with
        | nil =>
          rw [show summarizeGo remote ((category, titles) :: cats) acc =
              Except.error (SummarizeError.emptyResponse category) from by
            simp only [summarizeGo]; rw [if_neg hemp, hr]] at h
          exact absurd h (by simp)
        | cons c0 cs =>
          rw [show summarizeGo remote ((category, titles) :: cats) acc =
              summarizeGo remote cats (acc ++ [(category, extractBulletPoints c0)]) from by
            simp only [summarizeGo]; rw [if_neg hemp, hr]] at h
          rw [ih _ res h]
          simp [summarySpecEntry, hemp, hr, List.filterMap_cons]

theorem summarizeGo_ok_good (remote : String → RemoteResult) :
    ∀ (cats : List (String × List String)) (acc res : List (String × List (List Nat))),
    summarizeGo remote cats acc = Except.ok res →
    ∀ p ∈ cats, ¬ p.2 = [] →
      ∃ c0 cs, remote (promptFor p.1 p.2) = RemoteResult.response (c0 :: cs) := by
  intro cats
  induction cats with
  | nil => intro acc res _ p hp; exact absurd hp (by simp)
  | cons q cats ih =>
    obtain ⟨category, titles⟩ := q
    intro acc res h p hp hne
    by_cases hemp : titles = []
    · rw [show summarizeGo remote ((category, titles) :: cats) acc =
          summarizeGo remote cats acc from by
        simp only [summarizeGo]; rw [if_pos hemp]] at h
      rcases List.mem_cons.mp hp with he | he
      · exfalso
        apply hne
        rw [he]
        exact hemp
      · exact ih acc res h p he hne
    · cases hr : remote (promptFor category titles) with
      | failure msg =>
        rw [show summarizeGo remote ((category, titles) :: cats) acc =
            Except.error (SummarizeError.apiCallError category) from by
          simp only [summarizeGo]; rw [if_neg hemp, hr]] at h
        exact absurd h (by simp)
      | response choices =>
        cases choices with
        | nil =>
          rw [show summarizeGo remote ((category, titles) :: cats) acc =
              Except.error (SummarizeError.emptyResponse category) from by
            simp only [summarizeGo]; rw [if_neg hemp, hr]] at h
          exact absurd h (by simp)
        | cons c0 cs =>
          rw [show summarizeGo remote ((category, titles) :: cats) acc =
              summarizeGo remote cats (acc ++ [(category, extractBulletPoints c0)]) from by
            simp only [summarizeGo]; rw [if_neg hemp, hr]] at h
          rcases List.mem_cons.mp hp with he | he
          · refine ⟨c0, cs, ?_⟩
            rw [he]
            exact hr
          · exact ih _ res h p he hne

theorem summarizeGo_bad (remote : String → RemoteResult) :
    ∀ (cats : List (String × List String)) (acc : List (String × List (List Nat))),
    (∃ p ∈ cats, ¬ p.2 = [] ∧ badAt remote p) →
    ∃ e, summarizeGo remote cats acc = Except.error e := by
  intro cats
  induction cats with
  | nil => intro acc hex; obtain ⟨p, hp, _⟩ := hex; exact absurd hp (by simp)
  | cons q cats ih =>
    obtain ⟨category, titles⟩ := q
    intro acc hex
    obtain ⟨p, hp, hne, hbad⟩ := hex
    by_cases hemp : titles = []
    · have hstep : summarizeGo remote ((category, titles) :: cats) acc =
          summarizeGo remote cats acc := by
        simp only [summarizeGo]; rw [if_pos hemp]
      rcases List.mem_cons.mp hp with he | he
      · exfalso
        apply hne
        rw [he]
        exact hemp
      · rw [hstep]
        exact ih acc ⟨p, he, hne, hbad⟩
    · cases hr : remote (promptFor category titles) with
      | failure msg =>
        refine ⟨SummarizeError.apiCallError category, ?_⟩
        simp only [summarizeGo]; rw [if_neg hemp, hr]
      | response choices =>
        cases choices with
        | nil =>
          refine ⟨SummarizeError.emptyResponse category, ?_⟩
          simp only [summarizeGo]; rw [if_neg hemp, hr]
        | cons c0 cs =>
          have hstep : summarizeGo remote ((category, titles) :: cats) acc =
              summarizeGo remote cats (acc ++ [(category, extractBulletPoints c0)]) := by
            simp only [summarizeGo]; rw [if_neg hemp, hr]
          rcases List.mem_cons.mp hp with he | he
          · exfalso
            have : badAt remote (category, titles) := by rw [← he]; exact hbad
            simp only [badAt, hr] at this
          · rw [hstep]
            exact ih _ ⟨p, he, hne, hbad⟩

theorem specEntry_keys (remote : String → RemoteResult) :
    ∀ (cats : List (String × List String)),
    (∀ p ∈ cats, ¬ p.2 = [] →
      ∃ c0 cs, remote (promptFor p.1 p.2) = RemoteResult.response (c0 :: cs)) →
    (cats.filterMap (summarySpecEntry remote)).map Prod.fst =
      (cats.filter (fun p => !p.2.isEmpty)).map Prod.fst := by
  intro cats
  induction cats with
  | nil => intro _; rfl
  | cons p cats ih =>
    intro hgood
    have htail : ∀ q ∈ cats, ¬ q.2 = [] →
        ∃ c0 cs, remote (promptFor q.1 q.2) = RemoteResult.response (c0 :: cs) := by
      intro q hq; exact hgood q (by simp [hq])
    by_cases hemp : p.2 = []
    · have hent : summarySpecEntry remote p = none := by simp [summarySpecEntry, hemp]
      have hfil : (!p.2.isEmpty) = false := by simp [hemp]
      simp only [List.filterMap_cons, hent, List.filter_cons, hfil, Bool.false_eq_true,
        if_false]
      exact ih htail
    · obtain ⟨c0, cs, hr⟩ := hgood p (by simp) hemp
      have hent : summarySpecEntry remote p = some (p.1, extractBulletPoints c0) := by
        simp [summarySpecEntry, hemp, hr]
      have hfil : (!p.2.isEmpty) = true := by simp [hemp]
      simp only [List.filterMap_cons, hent, List.filter_cons, hfil, if_true, List.map_cons]
      rw [ih htail]

/-- C8: summarizeByCategory fails with the missing-key error whenever
the credential is empty, whatever the remote behaves like; on success
the result keys are exactly the non-empty categories (empty ones
contribute nothing); whenever some non-empty category gets a failed
call or an empty choice list the whole run returns an error and no
result map; and a successful category whose reply parses to zero
bullets is recorded as an empty entry, not an error. -/
theorem summarize_contract (categories : List (String × List String)) (apiKey : String)
    (remote : String → RemoteResult) :
    summarizeByCategory categories "" remote = Except.error SummarizeError.missingApiKey ∧
    (∀ res, summarizeByCategory categories apiKey remote = Except.ok res →
      res.map Prod.fst = (categories.filter (fun p => !p.2.isEmpty)).map Prod.fst ∧
      ∀ p ∈ categories, ∀ c0 cs, ¬ p.2 = [] →
        remote (promptFor p.1 p.2) = RemoteResult.response (c0 :: cs) →
        (p.1, extractBulletPoints c0) ∈ res) ∧
    ((∃ p ∈ categories, ¬ p.2 = [] ∧ badAt remote p) →
      ∃ e, summarizeByCategory categories apiKey remote = Except.error e) := by
  refine ⟨by simp [summarizeByCategory], ?_, ?_⟩
  · intro res hok
    have hkey : ¬ apiKey = "" := by
      intro hk
      rw [hk] at hok
      simp [summarizeByCategory] at hok
    rw [show summarizeByCategory categories apiKey remote =
        summarizeGo remote categories [] from by
      simp [summarizeByCategory, hkey]] at hok
    have hres := summarizeGo_ok remote categories [] res hok
    have hgood := summarizeGo_ok_good remote categories [] res hok
    constructor
    · rw [hres, List.nil_append]
      exact specEntry_keys remote categories hgood
    · intro p hp c0 cs hne hr
      rw [hres, List.nil_append, List.mem_filterMap]
      exact ⟨p, hp, by simp [summarySpecEntry, hne, hr]⟩
  · intro hex
    by_cases hkey : apiKey = ""
    · exact ⟨SummarizeError.missingApiKey, by simp [summarizeByCategory, hkey]⟩
    · obtain ⟨e, he⟩ := summarizeGo_bad remote categories [] hex
      refine ⟨e, ?_⟩
      rw [show summarizeByCategory categories apiKey remote =
          summarizeGo remote categories [] from by
        simp [summarizeByCategory, hkey]]
      exact he

/-- Witness for C8: concrete category maps against a stub remote that
answers with one dash bullet, and a stub that always fails. -/
theorem summarize_contract_witness :
    summarizeByCategory [("features", ["alpha"]), ("bugs", [])] ""
      (fun _ => RemoteResult.response [[45, 32, 120]]) =
      Except.error SummarizeError.missingApiKey ∧
    ([("features", [[120]])] : List (String × List (List Nat))).map Prod.fst =
      ([("features", ["alpha"]), ("bugs", [])].filter (fun p => !p.2.isEmpty)).map Prod.fst ∧
    ("features", [[120]]) ∈ ([("features", [[120]])] : List (String × List (List Nat))) ∧
    ∃ e, summarizeByCategory [("features", ["alpha"])] ("k")
      (fun _ => RemoteResult.failure ("boom")) = Except.error e := by
  refine ⟨?_, ?_, ?_, ?_⟩
  · exact (summarize_contract [("features", ["alpha"]), ("bugs", [])] ("k")
      (fun _ => RemoteResult.response [[45, 32, 120]])).1
  · exact ((summarize_contract [("features", ["alpha"]), ("bugs", [])] ("k")
      (fun _ => RemoteResult.response [[45, 32, 120]])).2.1 [("features", [[120]])]
      (by rfl)).1
  · have h := ((summarize_contract [("features", ["alpha"]), ("bugs", [])] ("k")
      (fun _ => RemoteResult.response [[45, 32, 120]])).2.1 [("features", [[120]])]
      (by rfl)).2 ("features", ["alpha"]) (by simp) [45, 32, 120] [] (by simp) rfl
    rw [show extractBulletPoints [45, 32, 120] = [[120]] from by decide] at h
    exact h
  · exact (summarize_contract [("features", ["alpha"])] ("k")
      (fun _ => RemoteResult.failure ("boom"))).2.2
      ⟨("features", ["alpha"]), by simp, by simp, by trivial⟩

end WorklogGen
